import Mathlib

/-!
Verification of the Bayesian classifier image filter
(itkBayesianClassifierImageFilter.h).

The repository ships only the class header (declarations); the method
bodies live in an .hxx file that is not part of the excerpt.  Consequently
the per-stage algorithms below are modelled from the specification, which
describes them stage by stage (Bayes combiner, normalizer/smoother,
arg-max decision rule, orchestrator), while the type-level facts (label
type defaulting to unsigned char, decision rule being a maximum rule,
optional priors and smoothing filter with iteration count) come from the
header.

Images are modelled as flat lists of pixels; each pixel of a vector image
is a list of rationals (one component per class).  Rationals stand in for
the double-precision posterior/prior component types, making the
"within floating-point tolerance" clauses exact.
-/

namespace ItkBayes

/-- A vector image: one class-component vector per pixel. -/
abbrev VecImage := List (List ℚ)

/-- Modelled from the spec: the number of classes of a vector image is the
component count of its pixels (the header fixes it as the vector length of
the membership image). -/
def numberOfClasses (img : VecImage) : ℕ := (img.headD []).length

/-- Modelled from the spec (Bayes Combiner, per pixel):
posterior[c] = membership[c] * prior[c]. -/
def bayesPixel (m p : List ℚ) : List ℚ := List.zipWith (· * ·) m p

/-- Modelled from the spec (missing .hxx body of ComputeBayesRule): with a
priors image, multiply membership by prior componentwise per pixel;
without priors, the posteriors are a straight copy of the memberships. -/
def computeBayesRule (m : VecImage) (priors : Option VecImage) : VecImage :=
  match priors with
  | some p => List.zipWith bayesPixel m p
  | none => m

/-- Modelled from the spec (Normalize phase, per pixel): scale the vector
so its components sum to 1; a vector whose component sum is zero is left
unchanged. -/
def normalizePixel (v : List ℚ) : List ℚ :=
  if v.sum = 0 then v else v.map (· / v.sum)

/-- Modelled from the spec: the Normalize phase applied to every pixel. -/
def normalizePosteriors (img : VecImage) : VecImage := img.map normalizePixel

/-- Modelled from the spec: extract class component c of every pixel as a
single-component grid. -/
def extractComponent (c : ℕ) (img : VecImage) : List ℚ :=
  img.map (fun px => px.getD c 0)

/-- Modelled from the spec: write a single-component grid back into class
component c of every pixel. -/
def writeComponent (c : ℕ) (img : VecImage) (vals : List ℚ) : VecImage :=
  List.zipWith (fun px v => px.set c v) img vals

/-- Modelled from the spec (one smoothing iteration): for each of the n
class components, extract that component, apply the smoothing operator,
and write the result back. -/
def smoothOnce (op : List ℚ → List ℚ) (n : ℕ) (img : VecImage) : VecImage :=
  (List.range n).foldl (fun acc c => writeComponent c acc (op (extractComponent c acc))) img

/-- Modelled from the spec (missing .hxx body of
NormalizeAndSmoothPosteriors): normalize every pixel; if an operator is
configured and the iteration count is positive, run that many smoothing
iterations and re-normalize afterwards; otherwise smoothing is a no-op. -/
def normalizeAndSmoothPosteriors (iters : ℕ) (op : Option (List ℚ → List ℚ))
    (img : VecImage) : VecImage :=
  let nrm := normalizePosteriors img
  match op, iters with
  | some f, Nat.succ k => normalizePosteriors ((smoothOnce f (numberOfClasses img))^[Nat.succ k] nrm)
  | _, _ => nrm

/-- Modelled from the spec (Decision Rule; the header only names
Statistics::MaximumDecisionRule): return the index of the
maximum-valued component, the lowest index winning ties.  Implemented as
a scan keeping the earlier index unless a strictly larger value appears
later. -/
def decisionRule : List ℚ → ℕ
  | [] => 0
  | [_] => 0
  | x :: y :: t =>
    let r := decisionRule (y :: t)
    if x < (y :: t).getD r 0 then r + 1 else 0

/-- Modelled from the spec (missing .hxx body of
ClassifyBasedOnPosteriors): apply the decision rule to every posterior
pixel and convert the resulting class index to the label pixel type. -/
def classifyBasedOnPosteriors (toLabel : ℕ → ℕ) (img : VecImage) : List ℕ :=
  img.map (fun px => toLabel (decisionRule px))

/-- Conversion of a class index to the default label pixel type of the
header, unsigned char (TLabelsType = unsigned char): reduction modulo
256. -/
def u8 (n : ℕ) : ℕ := n % 256

/-- Configuration errors of the orchestrator, from the error taxonomy of
the spec. -/
inductive ConfigError where
  | MissingInput
  | GeometryMismatch
  | ClassCountMismatch
  | MissingSmoothingFilter
deriving DecidableEq, Repr

/-- The filter object: inputs and configuration as set by the user, plus
the two output slots (posteriors image and label image), empty until an
execution populates them. -/
structure FilterState where
  membership : Option VecImage
  priors : Option VecImage
  numberOfSmoothingIterations : ℕ
  smoothingFilter : Option (List ℚ → List ℚ)
  posteriorsOut : Option VecImage
  labelsOut : Option (List ℕ)

/-- Modelled from the spec (Validating state of the orchestrator): the
membership input must be present; the priors image, when present, must
match the membership image in pixel count and in class count; a positive
smoothing iteration count requires a configured smoothing operator. -/
def validate (s : FilterState) : Option ConfigError :=
  match s.membership with
  | none => some ConfigError.MissingInput
  | some m =>
    match s.priors with
    | some p =>
      if p.length ≠ m.length then some ConfigError.GeometryMismatch
      else if numberOfClasses p ≠ numberOfClasses m then some ConfigError.ClassCountMismatch
      else if 0 < s.numberOfSmoothingIterations ∧ s.smoothingFilter.isNone then
        some ConfigError.MissingSmoothingFilter
      else none
    | none =>
      if 0 < s.numberOfSmoothingIterations ∧ s.smoothingFilter.isNone then
        some ConfigError.MissingSmoothingFilter
      else none

/-- Modelled from the spec (missing .hxx body of GenerateData): validate;
on a configuration error abort before touching the outputs, reporting the
error; otherwise run Combining, NormalizingSmoothing and Classifying in
order and store both outputs. -/
def GenerateData (toLabel : ℕ → ℕ) (s : FilterState) : Option ConfigError × FilterState :=
  match validate s with
  | some e => (some e, s)
  | none =>
    let m := s.membership.getD []
    let raw := computeBayesRule m s.priors
    let post := normalizeAndSmoothPosteriors s.numberOfSmoothingIterations s.smoothingFilter raw
    let labels := classifyBasedOnPosteriors toLabel post
    (none, { s with posteriorsOut := some post, labelsOut := some labels })

/-! ### Helper lemmas -/

lemma sum_map_div (l : List ℚ) (s : ℚ) : (l.map (· / s)).sum = l.sum / s := by
  induction l with
  | nil => simp
  | cons x t ih => simp [ih, add_div]

lemma eq_zero_of_mem_of_sum_eq_zero (l : List ℚ) (hnn : ∀ x ∈ l, 0 ≤ x)
    (h0 : l.sum = 0) : ∀ x ∈ l, x = 0 := by
  induction l with
  | nil => simp
  | cons a t ih =>
    have ha : 0 ≤ a := hnn a (by simp)
    have ht : 0 ≤ t.sum := List.sum_nonneg fun x hx => hnn x (by simp [hx])
    have hsum : a + t.sum = 0 := by simpa using h0
    have ha0 : a = 0 := le_antisymm (by linarith) ha
    intro x hx
    rcases List.mem_cons.mp hx with rfl | hx
    · exact ha0
    · exact ih (fun y hy => hnn y (by simp [hy])) (by linarith) x hx

lemma normalizePixel_of_sum_eq_zero (v : List ℚ) (h : v.sum = 0) :
    normalizePixel v = v := by
  simp [normalizePixel, h]

lemma normalizePixel_sum (v : List ℚ) (h : v.sum ≠ 0) :
    (normalizePixel v).sum = 1 := by
  simp only [normalizePixel, if_neg h]
  rw [sum_map_div, div_self h]

lemma normalizePixel_nonneg (v : List ℚ) (hnn : ∀ x ∈ v, 0 ≤ x) :
    ∀ x ∈ normalizePixel v, 0 ≤ x := by
  by_cases h : v.sum = 0
  · simpa [normalizePixel_of_sum_eq_zero v h] using hnn
  · have hs : 0 < v.sum := lt_of_le_of_ne (List.sum_nonneg hnn) (Ne.symm h)
    simp only [normalizePixel, if_neg h]
    intro x hx
    rcases List.mem_map.mp hx with ⟨y, hy, rfl⟩
    exact div_nonneg (hnn y hy) (le_of_lt hs)

lemma normalizePixel_idem (v : List ℚ) :
    normalizePixel (normalizePixel v) = normalizePixel v := by
  by_cases h : v.sum = 0
  · rw [normalizePixel_of_sum_eq_zero v h, normalizePixel_of_sum_eq_zero v h]
  · have h1 : (normalizePixel v).sum = 1 := normalizePixel_sum v h
    rw [normalizePixel, h1, if_neg one_ne_zero]
    simp

lemma normalizePixel_length (v : List ℚ) : (normalizePixel v).length = v.length := by
  by_cases h : v.sum = 0 <;> simp [normalizePixel, h]

lemma normalizePosteriors_idem (img : VecImage) :
    normalizePosteriors (normalizePosteriors img) = normalizePosteriors img := by
  simp [normalizePosteriors, List.map_map, Function.comp_def, normalizePixel_idem]

lemma set_getD_self (px : List ℚ) (c : ℕ) : px.set c (px.getD c 0) = px := by
  induction px generalizing c with
  | nil => simp
  | cons a t ih =>
    cases c with
    | zero => simp
    | succ k => simpa [List.getD] using ih k

lemma writeComponent_extract_self (c : ℕ) (img : VecImage) :
    writeComponent c img (extractComponent c img) = img := by
  induction img with
  | nil => simp [writeComponent, extractComponent]
  | cons px t ih =>
    simp only [writeComponent, extractComponent, List.map_cons, List.zipWith_cons_cons]
    rw [set_getD_self]
    simpa [writeComponent, extractComponent] using ih

lemma smoothOnce_id (n : ℕ) (img : VecImage) : smoothOnce id n img = img := by
  simp only [smoothOnce, id_eq]
  induction (List.range n) generalizing img with
  | nil => rfl
  | cons c l ih =>
    rw [List.foldl_cons, writeComponent_extract_self]
    exact ih img

lemma decisionRule_lt_length (v : List ℚ) (hv : v ≠ []) : decisionRule v < v.length := by
  induction v with
  | nil => exact absurd rfl hv
  | cons x t ih =>
    cases t with
    | nil => simp [decisionRule]
    | cons y s =>
      have h := ih (by simp)
      simp only [List.length_cons] at h ⊢
      by_cases hx : x < (y :: s).getD (decisionRule (y :: s)) 0
      · simp only [decisionRule, if_pos hx]
        omega
      · simp only [decisionRule, if_neg hx]
        omega

lemma decisionRule_le (v : List ℚ) (j : ℕ) (hj : j < v.length) :
    v.getD j 0 ≤ v.getD (decisionRule v) 0 := by
  induction v generalizing j with
  | nil => simp at hj
  | cons x t ih =>
    cases t with
    | nil =>
      cases j with
      | zero => simp [decisionRule]
      | succ k => simp at hj
    | cons y s =>
      by_cases hx : x < (y :: s).getD (decisionRule (y :: s)) 0
      · simp only [decisionRule, if_pos hx, List.getD_cons_succ]
        cases j with
        | zero => simpa using le_of_lt hx
        | succ k => exact ih k (by simpa using hj)
      · simp only [decisionRule, if_neg hx, List.getD_cons_zero]
        cases j with
        | zero => simp
        | succ k =>
          have h1 : (y :: s).getD k 0 ≤ (y :: s).getD (decisionRule (y :: s)) 0 :=
            ih k (by simpa using hj)
          have h2 : (y :: s).getD (decisionRule (y :: s)) 0 ≤ x := le_of_not_lt hx
          simpa using le_trans h1 h2

lemma decisionRule_lt_of_index_lt (v : List ℚ) (j : ℕ) (hj : j < decisionRule v) :
    v.getD j 0 < v.getD (decisionRule v) 0 := by
  induction v generalizing j with
  | nil => simp [decisionRule] at hj
  | cons x t ih =>
    cases t with
    | nil => simp [decisionRule] at hj
    | cons y s =>
      by_cases hx : x < (y :: s).getD (decisionRule (y :: s)) 0
      · rw [decisionRule, if_pos hx] at hj ⊢
        cases j with
        | zero => simpa using hx
        | succ k =>
          simp only [List.getD_cons_succ]
          exact ih k (by omega)
      · rw [decisionRule, if_neg hx] at hj
        omega

lemma forall_mem_zipWith {α β γ : Type} (f : α → β → γ) (Q : γ → Prop)
    (P1 : α → Prop) (P2 : β → Prop) (l1 : List α) (l2 : List β)
    (h1 : ∀ a ∈ l1, P1 a) (h2 : ∀ b ∈ l2, P2 b)
    (hf : ∀ a b, P1 a → P2 b → Q (f a b)) :
    ∀ z ∈ List.zipWith f l1 l2, Q z := by
  induction l1 generalizing l2 with
  | nil => simp
  | cons a t ih =>
    cases l2 with
    | nil => simp
    | cons b u =>
      intro z hz
      simp only [List.zipWith_cons_cons] at hz
      rcases List.mem_cons.mp hz with rfl | hz
      · exact hf a b (h1 a (by simp)) (h2 b (by simp))
      · exact ih u (fun x hx => h1 x (by simp [hx])) (fun x hx => h2 x (by simp [hx])) z hz

lemma writeComponent_length_forall (c : ℕ) (img : VecImage) (vals : List ℚ) (k : ℕ)
    (hl : ∀ px ∈ img, px.length = k) :
    ∀ px ∈ writeComponent c img vals, px.length = k := by
  refine forall_mem_zipWith _ _ (fun px => px.length = k) (fun _ => True) img vals hl
    (by simp) ?_
  intro a b ha _
  simpa using ha

lemma smoothOnce_length_forall (op : List ℚ → List ℚ) (n : ℕ) (img : VecImage) (k : ℕ)
    (hl : ∀ px ∈ img, px.length = k) :
    ∀ px ∈ smoothOnce op n img, px.length = k := by
  simp only [smoothOnce]
  induction (List.range n) generalizing img with
  | nil => exact hl
  | cons c l ih =>
    rw [List.foldl_cons]
    exact ih _ (writeComponent_length_forall c img (op (extractComponent c img)) k hl)

lemma iterate_preserving {α : Type} (P : α → Prop) (f : α → α)
    (hf : ∀ a, P a → P (f a)) (m : ℕ) (a : α) (ha : P a) : P (f^[m] a) := by
  induction m generalizing a with
  | zero => simpa using ha
  | succ j ih =>
    rw [Function.iterate_succ_apply]
    exact ih (f a) (hf a ha)

lemma normalizePosteriors_length_forall (img : VecImage) (k : ℕ)
    (hl : ∀ px ∈ img, px.length = k) :
    ∀ px ∈ normalizePosteriors img, px.length = k := by
  intro px hpx
  rcases List.mem_map.mp hpx with ⟨q, hq, rfl⟩
  rw [normalizePixel_length]
  exact hl q hq

lemma normalizeAndSmoothPosteriors_length_forall (iters : ℕ)
    (op : Option (List ℚ → List ℚ)) (img : VecImage) (k : ℕ)
    (hl : ∀ px ∈ img, px.length = k) :
    ∀ px ∈ normalizeAndSmoothPosteriors iters op img, px.length = k := by
  match op, iters with
  | some f, Nat.succ j =>
    exact normalizePosteriors_length_forall _ k
      (iterate_preserving (fun im => ∀ px ∈ im, px.length = k) _
        (fun im him => smoothOnce_length_forall f (numberOfClasses img) im k him)
        (Nat.succ j) _ (normalizePosteriors_length_forall img k hl))
  | none, _ => exact normalizePosteriors_length_forall img k hl
  | some _, 0 => exact normalizePosteriors_length_forall img k hl

lemma generateData_failure (toLabel : ℕ → ℕ) (s : FilterState) (e : ConfigError)
    (h : validate s = some e) : GenerateData toLabel s = (some e, s) := by
  unfold GenerateData
  rw [h]

lemma generateData_success (toLabel : ℕ → ℕ) (s : FilterState)
    (h : validate s = none) :
    GenerateData toLabel s =
      (none, { s with
        posteriorsOut := some (normalizeAndSmoothPosteriors s.numberOfSmoothingIterations
          s.smoothingFilter (computeBayesRule (s.membership.getD []) s.priors)),
        labelsOut := some (classifyBasedOnPosteriors toLabel
          (normalizeAndSmoothPosteriors s.numberOfSmoothingIterations
            s.smoothingFilter (computeBayesRule (s.membership.getD []) s.priors))) }) := by
  unfold GenerateData
  rw [h]

lemma getD_replicate_append (n : ℕ) : (List.replicate n (0:ℚ) ++ [1]).getD n 0 = 1 := by
  induction n with
  | zero => rfl
  | succ k ih => simp [List.replicate_succ, List.getD_cons_succ, ih]

lemma decisionRule_replicate_append (n : ℕ) :
    decisionRule (List.replicate n (0:ℚ) ++ [1]) = n := by
  induction n with
  | zero => rfl
  | succ k ih =>
    have hsh : List.replicate (k+1) (0:ℚ) ++ [1] = 0 :: (List.replicate k 0 ++ [1]) := by
      simp [List.replicate_succ]
    rw [hsh]
    rcases hk : List.replicate k (0:ℚ) ++ [1] with _ | ⟨y, t⟩
    · simp at hk
    · have h1 : decisionRule (y :: t) = k := by rw [← hk]; exact ih
      have h2 : (y :: t).getD k 0 = 1 := by rw [← hk]; exact getD_replicate_append k
      simp only [decisionRule, h1, h2]
      norm_num

/-- The concrete 257-class posterior vector used to probe the default
unsigned char label type: zero in classes 0..255 and the maximum in class
256. -/
def v257 : List ℚ := List.replicate 256 0 ++ [1]

/-! ### Claim theorems -/

/-- Claim C1: for every pixel position and class index, the raw posterior
produced by the Combining stage is membership[c] * prior[c] when a priors
image was supplied, and a straight copy of the membership image when not;
the value at a pixel depends only on the membership and prior vectors of
that same pixel. -/
theorem claim_C1 :
    (∀ (m p : VecImage) (i c : ℕ),
        i < m.length → i < p.length →
        c < (m.getD i []).length → c < (p.getD i []).length →
        ((computeBayesRule m (some p)).getD i []).getD c 0
          = ((m.getD i []).getD c 0) * ((p.getD i []).getD c 0))
    ∧ ∀ m : VecImage, computeBayesRule m none = m := by
  constructor
  · intro m p i c him hip hcm hcp
    have hmi : m.getD i [] = m[i] := List.getD_eq_getElem m [] him
    have hpi : p.getD i [] = p[i] := List.getD_eq_getElem p [] hip
    rw [hmi] at hcm
    rw [hpi] at hcp
    rw [hmi, hpi]
    have hl : i < (List.zipWith bayesPixel m p).length := by
      rw [List.length_zipWith]; omega
    simp only [computeBayesRule]
    rw [List.getD_eq_getElem _ _ hl, List.getElem_zipWith]
    have hc : c < (List.zipWith (· * ·) (m[i]) (p[i])).length := by
      rw [List.length_zipWith]; omega
    simp only [bayesPixel]
    rw [List.getD_eq_getElem _ _ hc, List.getElem_zipWith,
      List.getD_eq_getElem _ _ hcm, List.getD_eq_getElem _ _ hcp]
  · intro m
    rfl

/-- Witness for C1 at scenario B of the spec: membership [3/10, 7/10],
priors [1/2, 1/2]. -/
theorem claim_C1_witness :
    (((computeBayesRule [[(3:ℚ)/10, 7/10]] (some [[(1:ℚ)/2, 1/2]])).getD 0 []).getD 0 0
      = ((([[(3:ℚ)/10, 7/10]] : VecImage).getD 0 []).getD 0 0)
        * ((([[(1:ℚ)/2, 1/2]] : VecImage).getD 0 []).getD 0 0))
    ∧ computeBayesRule [[(3:ℚ)/10, 7/10]] none = [[(3:ℚ)/10, 7/10]] :=
  ⟨claim_C1.1 [[(3:ℚ)/10, 7/10]] [[(1:ℚ)/2, 1/2]] 0 0 (by decide) (by decide)
      (by decide) (by decide),
    claim_C1.2 [[(3:ℚ)/10, 7/10]]⟩

/-- Claim C2: after the Normalize phase, a pixel whose pre-normalization
component sum is zero is left unchanged (all components zero, given that
components are non-negative), and every other pixel has non-negative
components summing exactly to 1. -/
theorem claim_C2 (img : VecImage) (i : ℕ) (hi : i < img.length)
    (hnn : ∀ x ∈ img.getD i [], 0 ≤ x) :
    ((img.getD i []).sum = 0 →
        (normalizePosteriors img).getD i [] = img.getD i [] ∧
        ∀ x ∈ (normalizePosteriors img).getD i [], x = 0)
    ∧ ((img.getD i []).sum ≠ 0 →
        ((normalizePosteriors img).getD i []).sum = 1 ∧
        ∀ x ∈ (normalizePosteriors img).getD i [], 0 ≤ x) := by
  have hi2 : i < (normalizePosteriors img).length := by
    simpa [normalizePosteriors] using hi
  have hmap : (normalizePosteriors img).getD i [] = normalizePixel (img.getD i []) := by
    rw [List.getD_eq_getElem _ _ hi2, List.getD_eq_getElem _ _ hi]
    simp [normalizePosteriors]
  rw [hmap]
  constructor
  · intro h0
    refine ⟨normalizePixel_of_sum_eq_zero _ h0, ?_⟩
    rw [normalizePixel_of_sum_eq_zero _ h0]
    exact eq_zero_of_mem_of_sum_eq_zero _ hnn h0
  · intro h0
    exact ⟨normalizePixel_sum _ h0, normalizePixel_nonneg _ hnn⟩

/-- Witness for C2 at a concrete unnormalized pixel [0, 2]. -/
theorem claim_C2_witness :
    ((normalizePosteriors [[(0:ℚ), 2]]).getD 0 []).sum = 1 :=
  ((claim_C2 [[(0:ℚ), 2]] 0 (by decide) (by simp)).2 (by simp)).1

/-- Claim C3: the decision rule returns an index below the vector length,
the component at that index is maximal, and every strictly earlier index
holds a strictly smaller value, so the lowest index among maximal values
wins every tie (in particular the all-zero vector is labelled 0); the
rule is a pure function of the single vector. -/
theorem claim_C3 (v : List ℚ) (hv : v ≠ []) :
    decisionRule v < v.length ∧
    (∀ j < v.length, v.getD j 0 ≤ v.getD (decisionRule v) 0) ∧
    (∀ j < decisionRule v, v.getD j 0 < v.getD (decisionRule v) 0) :=
  ⟨decisionRule_lt_length v hv,
    fun j hj => decisionRule_le v j hj,
    fun j hj => decisionRule_lt_of_index_lt v j hj⟩

/-- Witness for C3 at the all-zero two-class vector of scenario C. -/
theorem claim_C3_witness :
    decisionRule [(0:ℚ), 0] < 2 ∧ decisionRule [(0:ℚ), 0] = 0 :=
  ⟨(claim_C3 [(0:ℚ), 0] (by decide)).1, by decide⟩

/-- Claim C4: any positive smoothing iteration count with no configured
smoothing operator is rejected by validation: execution reports the
configuration error and neither the posteriors output nor the label
output is populated (scenario E is the instance iterations = 2). -/
theorem claim_C4 (m : VecImage) (pr : Option VecImage) (iters : ℕ)
    (hiters : 0 < iters)
    (hpr : ∀ p, pr = some p →
      p.length = m.length ∧ numberOfClasses p = numberOfClasses m) :
    GenerateData u8 ⟨some m, pr, iters, none, none, none⟩
      = (some ConfigError.MissingSmoothingFilter, ⟨some m, pr, iters, none, none, none⟩)
    ∧ (GenerateData u8 ⟨some m, pr, iters, none, none, none⟩).2.posteriorsOut = none
    ∧ (GenerateData u8 ⟨some m, pr, iters, none, none, none⟩).2.labelsOut = none := by
  have hval : validate ⟨some m, pr, iters, none, none, none⟩
      = some ConfigError.MissingSmoothingFilter := by
    cases pr with
    | none => simp [validate, hiters]
    | some p =>
      obtain ⟨h1, h2⟩ := hpr p rfl
      simp [validate, h1, h2, hiters]
  have hgen := generateData_failure u8 ⟨some m, pr, iters, none, none, none⟩
    ConfigError.MissingSmoothingFilter hval
  exact ⟨hgen, by rw [hgen], by rw [hgen]⟩

/-- Witness for C4 at scenario E: one single-class membership pixel, no
priors, iterations = 2, no operator. -/
theorem claim_C4_witness :
    GenerateData u8 ⟨some [[(1:ℚ)]], none, 2, none, none, none⟩
      = (some ConfigError.MissingSmoothingFilter,
        ⟨some [[(1:ℚ)]], none, 2, none, none, none⟩) :=
  (claim_C4 [[(1:ℚ)]] none 2 (by decide) (fun p h => by cases h)).1

/-- Claim C5: when the priors image and the membership image carry
different class counts, validation reports a configuration error and
neither output slot is populated, whatever the rest of the
configuration. -/
theorem claim_C5 (m p : VecImage) (iters : ℕ) (op : Option (List ℚ → List ℚ))
    (hgeom : p.length = m.length)
    (hcc : numberOfClasses p ≠ numberOfClasses m) :
    GenerateData u8 ⟨some m, some p, iters, op, none, none⟩
      = (some ConfigError.ClassCountMismatch, ⟨some m, some p, iters, op, none, none⟩)
    ∧ (GenerateData u8 ⟨some m, some p, iters, op, none, none⟩).2.posteriorsOut = none
    ∧ (GenerateData u8 ⟨some m, some p, iters, op, none, none⟩).2.labelsOut = none := by
  have hval : validate ⟨some m, some p, iters, op, none, none⟩
      = some ConfigError.ClassCountMismatch := by
    simp [validate, hgeom, hcc]
  have hgen := generateData_failure u8 ⟨some m, some p, iters, op, none, none⟩
    ConfigError.ClassCountMismatch hval
  exact ⟨hgen, by rw [hgen], by rw [hgen]⟩

/-- Witness for C5: a one-class membership image against a two-class
priors image. -/
theorem claim_C5_witness :
    GenerateData u8 ⟨some [[(1:ℚ)]], some [[(1:ℚ), 1]], 0, none, none, none⟩
      = (some ConfigError.ClassCountMismatch,
        ⟨some [[(1:ℚ)]], some [[(1:ℚ), 1]], 0, none, none, none⟩) :=
  (claim_C5 [[(1:ℚ)]] [[(1:ℚ), 1]] 0 none rfl (by decide)).1

/-- Claim C7: an execution leaves the membership input, the priors input
and the user configuration untouched; only the two output slots can
differ between the state before and after GenerateData. -/
theorem claim_C7 (toLabel : ℕ → ℕ) (s : FilterState) :
    (GenerateData toLabel s).2.membership = s.membership
    ∧ (GenerateData toLabel s).2.priors = s.priors
    ∧ (GenerateData toLabel s).2.numberOfSmoothingIterations
        = s.numberOfSmoothingIterations
    ∧ (GenerateData toLabel s).2.smoothingFilter = s.smoothingFilter := by
  cases hval : validate s with
  | some e =>
    rw [generateData_failure toLabel s e hval]
    exact ⟨rfl, rfl, rfl, rfl⟩
  | none =>
    rw [generateData_success toLabel s hval]
    exact ⟨rfl, rfl, rfl, rfl⟩

lemma normalizeAndSmooth_zero (op : Option (List ℚ → List ℚ)) (img : VecImage) :
    normalizeAndSmoothPosteriors 0 op img = normalizePosteriors img := by
  cases op <;> rfl

lemma normalizeAndSmooth_one_id (img : VecImage) :
    normalizeAndSmoothPosteriors 1 (some id) img = normalizePosteriors img := by
  show normalizePosteriors ((smoothOnce id (numberOfClasses img))^[1] (normalizePosteriors img))
      = normalizePosteriors img
  rw [Function.iterate_one, smoothOnce_id, normalizePosteriors_idem]

lemma validate_output_slots (s : FilterState) (a : Option VecImage) (b : Option (List ℕ)) :
    validate { s with posteriorsOut := a, labelsOut := b } = validate s := rfl

/-- Claim C8: one smoothing iteration with the identity operator produces
the same posteriors output as running with zero iterations, because the
re-normalization after smoothing is the identity on already-normalized
(and on all-zero) pixels. -/
theorem claim_C8 (s : FilterState) :
    (GenerateData u8
        { s with numberOfSmoothingIterations := 1, smoothingFilter := some id }).2.posteriorsOut
      = (GenerateData u8
        { s with numberOfSmoothingIterations := 0, smoothingFilter := none }).2.posteriorsOut := by
  obtain ⟨mem, pr, it, op, po, lo⟩ := s
  cases mem with
  | none => rfl
  | some m =>
    cases pr with
    | none =>
      have h1 : validate ⟨some m, none, 1, some id, po, lo⟩ = none := by simp [validate]
      have h0 : validate ⟨some m, none, 0, none, po, lo⟩ = none := by simp [validate]
      rw [generateData_success _ _ h1, generateData_success _ _ h0]
      simp [normalizeAndSmooth_one_id, normalizeAndSmooth_zero]
    | some p =>
      by_cases hg : p.length = m.length
      · by_cases hc : numberOfClasses p = numberOfClasses m
        · have h1 : validate ⟨some m, some p, 1, some id, po, lo⟩ = none := by
            simp [validate, hg, hc]
          have h0 : validate ⟨some m, some p, 0, none, po, lo⟩ = none := by
            simp [validate, hg, hc]
          rw [generateData_success _ _ h1, generateData_success _ _ h0]
          simp [normalizeAndSmooth_one_id, normalizeAndSmooth_zero]
        · have h1 : validate ⟨some m, some p, 1, some id, po, lo⟩
              = some ConfigError.ClassCountMismatch := by simp [validate, hg, hc]
          have h0 : validate ⟨some m, some p, 0, none, po, lo⟩
              = some ConfigError.ClassCountMismatch := by simp [validate, hg, hc]
          rw [generateData_failure _ _ _ h1, generateData_failure _ _ _ h0]
      · have h1 : validate ⟨some m, some p, 1, some id, po, lo⟩
            = some ConfigError.GeometryMismatch := by simp [validate, hg]
        have h0 : validate ⟨some m, some p, 0, none, po, lo⟩
            = some ConfigError.GeometryMismatch := by simp [validate, hg]
        rw [generateData_failure _ _ _ h1, generateData_failure _ _ _ h0]

/-- Claim C9: after a successful execution, executing again with the same
inputs and configuration recomputes and overwrites both outputs to the
same values: the outputs of the second run equal those of the first, with
no dependence on the populated output slots. -/
theorem claim_C9 (s : FilterState) (h : validate s = none) :
    (GenerateData u8 (GenerateData u8 s).2).2.posteriorsOut
      = (GenerateData u8 s).2.posteriorsOut
    ∧ (GenerateData u8 (GenerateData u8 s).2).2.labelsOut
      = (GenerateData u8 s).2.labelsOut := by
  have hsucc := generateData_success u8 s h
  set post := normalizeAndSmoothPosteriors s.numberOfSmoothingIterations
    s.smoothingFilter (computeBayesRule (s.membership.getD []) s.priors) with hpost
  set labs := classifyBasedOnPosteriors u8 post with hlabs
  rw [hsucc]
  have h2 : validate { s with posteriorsOut := some post, labelsOut := some labs } = none := by
    rw [validate_output_slots]
    exact h
  rw [generateData_success u8 _ h2]
  exact ⟨rfl, rfl⟩

/-- Witness for C9: a two-class single-pixel membership image with no
priors and no smoothing, run twice. -/
theorem claim_C9_witness :
    (GenerateData u8 (GenerateData u8
        ⟨some [[(0:ℚ), 1]], none, 0, none, none, none⟩).2).2.posteriorsOut
      = (GenerateData u8 ⟨some [[(0:ℚ), 1]], none, 0, none, none, none⟩).2.posteriorsOut
    ∧ (GenerateData u8 (GenerateData u8
        ⟨some [[(0:ℚ), 1]], none, 0, none, none, none⟩).2).2.labelsOut
      = (GenerateData u8 ⟨some [[(0:ℚ), 1]], none, 0, none, none, none⟩).2.labelsOut :=
  claim_C9 ⟨some [[(0:ℚ), 1]], none, 0, none, none, none⟩ (by simp [validate])

/-- Claim C6: when the membership pixels (and the priors pixels, when
priors are supplied) all carry n class components with n positive, every
label an execution stores in the label output is strictly below n. -/
theorem claim_C6 (s : FilterState) (m : VecImage) (labs : List ℕ) (n : ℕ)
    (hn : 0 < n)
    (hm : s.membership = some m)
    (hml : ∀ px ∈ m, px.length = n)
    (hpl : ∀ p, s.priors = some p → ∀ px ∈ p, px.length = n)
    (hfresh : s.labelsOut = none)
    (hout : (GenerateData u8 s).2.labelsOut = some labs) :
    ∀ lab ∈ labs, lab < n := by
  cases hval : validate s with
  | some e =>
    rw [generateData_failure u8 s e hval] at hout
    rw [hfresh] at hout
    cases hout
  | none =>
    rw [generateData_success u8 s hval] at hout
    simp only at hout
    have hlabs : labs = classifyBasedOnPosteriors u8
        (normalizeAndSmoothPosteriors s.numberOfSmoothingIterations
          s.smoothingFilter (computeBayesRule (s.membership.getD []) s.priors)) :=
      (Option.some.inj hout).symm
    have hraw : ∀ px ∈ computeBayesRule (s.membership.getD []) s.priors,
        px.length = n := by
      rw [hm]
      cases hpr : s.priors with
      | none => simpa [computeBayesRule] using hml
      | some p =>
        simp only [computeBayesRule, Option.getD_some]
        exact forall_mem_zipWith bayesPixel (fun z => z.length = n)
          (fun a => a.length = n) (fun b => b.length = n) m p hml (hpl p hpr)
          (fun a b ha hb => by simp [bayesPixel, List.length_zipWith, ha, hb])
    have hpost := normalizeAndSmoothPosteriors_length_forall
      s.numberOfSmoothingIterations s.smoothingFilter _ n hraw
    intro lab hlab
    rw [hlabs] at hlab
    rcases List.mem_map.mp hlab with ⟨px, hpx, rfl⟩
    have hlen : px.length = n := hpost px hpx
    have hne : px ≠ [] := by
      intro hcontra
      rw [hcontra] at hlen
      simp at hlen
      omega
    have hdr : decisionRule px < n := hlen ▸ decisionRule_lt_length px hne
    exact lt_of_le_of_lt (Nat.mod_le _ _) hdr

/-- Witness for C6: a two-class single-pixel membership image; the label
stored is 1 and is below the class count 2. -/
theorem claim_C6_witness :
    (GenerateData u8 ⟨some [[(0:ℚ), 1]], none, 0, none, none, none⟩).2.labelsOut = some [1]
    ∧ (1:ℕ) < 2 :=
  ⟨by simp [GenerateData, validate, normalizeAndSmoothPosteriors,
      normalizePosteriors, normalizePixel, computeBayesRule,
      classifyBasedOnPosteriors, decisionRule, u8],
    claim_C6 ⟨some [[(0:ℚ), 1]], none, 0, none, none, none⟩ [[(0:ℚ), 1]] [1] 2
      (by decide) rfl (by simp) (fun p h => by cases h) rfl
      (by simp [GenerateData, validate, normalizeAndSmoothPosteriors,
        normalizePosteriors, normalizePixel, computeBayesRule,
        classifyBasedOnPosteriors, decisionRule, u8])
      1 (by simp)⟩

/-- Claim C10 (amended): the label written per pixel is the arg-max index
converted to the fixed default label type unsigned char, that is, reduced
modulo 256; the stored label equals the arg-max index exactly when the
class count fits in that type (numberOfClasses up to 256), while the
range guarantee stored label below numberOfClasses holds in every case
because the reduced value never exceeds the arg-max index. -/
theorem claim_C10 (px : List ℚ) (hpx : px ≠ []) :
    classifyBasedOnPosteriors u8 [px] = [decisionRule px % 256]
    ∧ decisionRule px % 256 < px.length
    ∧ (px.length ≤ 256 → decisionRule px % 256 = decisionRule px) := by
  refine ⟨rfl, ?_, ?_⟩
  · exact lt_of_le_of_lt (Nat.mod_le _ _) (decisionRule_lt_length px hpx)
  · intro hle
    exact Nat.mod_eq_of_lt (lt_of_lt_of_le (decisionRule_lt_length px hpx) hle)

/-- Witness for C10 at a two-class pixel, where the conversion is the
identity. -/
theorem claim_C10_witness :
    classifyBasedOnPosteriors u8 [[(0:ℚ), 1]] = [decisionRule [(0:ℚ), 1] % 256]
    ∧ decisionRule [(0:ℚ), 1] % 256 < 2
    ∧ decisionRule [(0:ℚ), 1] % 256 = decisionRule [(0:ℚ), 1] :=
  ⟨(claim_C10 [(0:ℚ), 1] (by decide)).1,
    (claim_C10 [(0:ℚ), 1] (by decide)).2.1,
    (claim_C10 [(0:ℚ), 1] (by decide)).2.2 (by decide)⟩

/-- Counterexample to C10 as stated: with 257 classes the label type does
not fit the class count, the arg-max index 256 is stored as 256 mod 256 =
0, yet the stored label still lies in the range 0 up to 257, so the range
guarantee holds at a class count that does not fit in unsigned char; what
fails is that the stored label no longer equals the arg-max index. -/
theorem claim_C10_counterexample :
    v257.length = 257
    ∧ ¬ (257 ≤ 256)
    ∧ decisionRule v257 = 256
    ∧ classifyBasedOnPosteriors u8 [v257] = [0]
    ∧ (0:ℕ) < 257 := by
  have hd : decisionRule v257 = 256 := decisionRule_replicate_append 256
  have hlen : v257.length = 257 := by
    show (List.replicate 256 (0:ℚ) ++ [1]).length = 257
    rw [List.length_append, List.length_replicate, List.length_singleton]
  refine ⟨hlen, by decide, hd, ?_, by decide⟩
  show [u8 (decisionRule v257)] = [0]
  rw [hd]
  decide

end ItkBayes
